import Mathlib

/-!
Verification of the repository commit sampling & scoring pipeline
(`main.go`, the Gemini-scored ranking variant).

The pure algorithmic core is embedded shallowly:
* network collaborators (GitHub pagination, commit-detail fetch, the Gemini
  API) are modelled as explicit inputs (lists of pages, oracle functions,
  a response value);
* the cryptographically strong random source `crypto/rand` is modelled as a
  tape `rand : Nat → Nat`, where `rand i` is the value drawn by
  `rand.Int(rand.Reader, big.NewInt(int64(i+1)))` (hence `rand i ≤ i` for a
  real tape);
* Go `float64` arithmetic on scores is modelled over `ℚ` (at every value the
  claims mention, the `float64` computation is exact);
* Go `int` is modelled as `Int` where negative values occur (sentinel -1,
  the line limit) and as `Nat` for counts.
-/

/-- `CommitInfo` from main.go: SHA, message and (possibly truncated) diff. -/
structure CommitInfo where
  SHA : String
  Message : String
  Diff : String
deriving DecidableEq

/-- `GeminiScore` from main.go: the two integer fields parsed from the
evaluator's JSON response. -/
structure GeminiScore where
  TechnicalSophistication : Int
  MessageAppropriateness : Int
deriving DecidableEq

/-- `RepoScore` from main.go. `OverallScore` is `float64` in the source,
modelled as `ℚ`. -/
structure RepoScore where
  Name : String
  CommitCount : Int
  TechnicalScore : Int
  MessageScore : Int
  OverallScore : ℚ
  AnalyzedCommitsCount : Nat
  SampledCommits : List CommitInfo
deriving DecidableEq

/-- Constant `numRandomCommitsToAnalyze = 5` from main.go. -/
def numRandomCommitsToAnalyze : Nat := 5

/-- Constant `diffLinesLimit = 100` from main.go. -/
def diffLinesLimit : Int := 100

/-- Constant `commitCountWeight = 0.2` from main.go. -/
def commitCountWeight : ℚ := 0.2

/-- Constant `technicalScoreWeight = 0.4` from main.go. -/
def technicalScoreWeight : ℚ := 0.4

/-- Constant `messageScoreWeight = 0.4` from main.go. -/
def messageScoreWeight : ℚ := 0.4

/-- Constant `maxCommitCountForNorm = 1000` from main.go. -/
def maxCommitCountForNorm : ℚ := 1000

/-- One step of the Fisher-Yates loop:
`indices[i], indices[j] = indices[j], indices[i]` (both right-hand sides read
from the original slice, as in Go's parallel assignment). -/
def listSwap (l : List Nat) (i j : Nat) : List Nat :=
  (l.set i (l.getD j 0)).set j (l.getD i 0)

/-- The shuffle loop `for i := len(indices) - 1; i > 0; i--` of
`GetRepositoryCommitAnalysisData`: at position `i` it swaps entries `i` and
`rand i`, where `rand i` models `rand.Int(rand.Reader, big.NewInt(int64(i+1)))`. -/
def fyLoop (rand : Nat → Nat) : Nat → List Nat → List Nat
  | 0, l => l
  | i + 1, l => fyLoop rand i (listSwap l (i + 1) (rand (i + 1)))

/-- Step 3 of `GetRepositoryCommitAnalysisData`: clamp the requested sample
size to the population (`numToSelect`), shuffle the index array `[0, n)` with
a full Fisher-Yates pass, take the first `numToSelect` shuffled indices and
read the corresponding SHAs from the population. -/
def selectRandomSHAs (rand : Nat → Nat) (allCommitSHAs : List String)
    (numRandomCommits : Nat) : List String :=
  let numToSelect :=
    if allCommitSHAs.length < numRandomCommits then allCommitSHAs.length
    else numRandomCommits
  let indices := fyLoop rand (allCommitSHAs.length - 1) (List.range allCommitSHAs.length)
  (indices.take numToSelect).map (fun idx => allCommitSHAs.getD idx "")

/-- `strings.Split(s, "\n")` as used on each file patch: split the character
data at every newline; the empty string yields one empty field. -/
def splitLinesAux : List Char → List Char → List String
  | [], acc => [String.mk acc.reverse]
  | c :: cs, acc =>
    if c = '\n' then String.mk acc.reverse :: splitLinesAux cs []
    else splitLinesAux cs (c :: acc)

/-- `strings.Split(patch, "\n")` from the diff-packaging loop. -/
def splitLines (s : String) : List String := splitLinesAux s.data []

/-- One `WriteString` event of the diff-packaging loop of
`GetRepositoryCommitAnalysisData`: a content line (rendered as the line text
plus `"\n"`), the file separator `"---\n"`, or the truncation marker
`"\n... (diff truncated due to line limit)\n"`. -/
inductive DiffTok where
  | line (s : String)
  | sep
  | marker
deriving DecidableEq

/-- The inner per-line loop of the diff packager (`for _, line := range
patchLines`): while `currentLines < diffLinesLimit` emit the line and count
it; the moment `currentLines >= diffLinesLimit` emit the truncation marker
and report truncation (the Go code then jumps to `EndDiffProcessing`).
Returns (emitted tokens, updated `currentLines`, truncated?). -/
def emitPatch (limit : Int) : List String → Nat → List DiffTok × Nat × Bool
  | [], curr => ([], curr, false)
  | ln :: rest, curr =>
    if limit ≤ (curr : Int) then ([DiffTok.marker], curr, true)
    else
      let r := emitPatch limit rest (curr + 1)
      (DiffTok.line ln :: r.1, r.2.1, r.2.2)

/-- The outer per-file loop of the diff packager (`for _, file := range
commit.Files`): files with empty patches are skipped; with a positive line
limit each patch runs through `emitPatch` (on truncation the remaining files
are discarded, otherwise a separator is appended only while still under the
limit); with a non-positive limit the full patch is emitted followed by the
separator.  (With no limit Go writes `patch + "\n---\n"`, which renders
character-for-character the same as one `line` token per split line followed
by `sep`, since the split lines joined by `"\n"` reconstitute the patch.) -/
def emitFiles (limit : Int) : List String → Nat → List DiffTok
  | [], _ => []
  | p :: rest, curr =>
    if p = "" then emitFiles limit rest curr
    else if 0 < limit then
      let r := emitPatch limit (splitLines p) curr
      if r.2.2 then r.1
      else if (r.2.1 : Int) < limit then r.1 ++ DiffTok.sep :: emitFiles limit rest r.2.1
      else r.1 ++ emitFiles limit rest r.2.1
    else (splitLines p).map DiffTok.line ++ DiffTok.sep :: emitFiles limit rest curr

/-- Rendering of one `WriteString` event back to text. -/
def renderTok : DiffTok → String
  | DiffTok.line s => s ++ "\n"
  | DiffTok.sep => "---\n"
  | DiffTok.marker => "\n... (diff truncated due to line limit)\n"

/-- The text accumulated in the `diffSnippet` string builder. -/
def renderToks (toks : List DiffTok) : String :=
  String.join (toks.map renderTok)

/-- `strings.TrimSuffix(s, "\n---\n")` from the packaging of `CommitInfo.Diff`. -/
def trimSepSuffix (s : String) : String :=
  if "\n---\n".data.isSuffixOf s.data then String.mk (s.data.take (s.data.length - 5)) else s

/-- The concatenated per-file patch text, line by line: all lines of every
non-empty patch, in file order (this is the text whose prefix the packager
emits). -/
def allPatchLines (patches : List String) : List String :=
  (patches.filter (fun p => p ≠ "")).flatMap splitLines

/-- The content lines among the emitted tokens (separators and the
truncation marker are not content). -/
def lineToks : List DiffTok → List String
  | [] => []
  | DiffTok.line s :: rest => s :: lineToks rest
  | _ :: rest => lineToks rest

/-- What the commit-detail fetcher (`GetCommit`) returns for one SHA:
the optional commit message and the per-file patches in API order. -/
structure CommitDetail where
  message : Option String
  patches : List String
deriving DecidableEq

/-- Packaging of one fetched commit into a `CommitInfo`
(step 4 of `GetRepositoryCommitAnalysisData`): absent message becomes `""`,
the diff snippet is the rendered token stream with a trailing file separator
trimmed. -/
def packageCommit (sha : String) (d : CommitDetail) (limit : Int) : CommitInfo :=
  { SHA := sha
    Message := d.message.getD ""
    Diff := trimSepSuffix (renderToks (emitFiles limit d.patches 0)) }

/-- Step 4 of `GetRepositoryCommitAnalysisData`: fetch the detail of each
selected SHA; a fetch failure (`detail sha = none`) skips that commit
(`continue`) and processing moves on to the next SHA. -/
def fetchDetails (detail : String → Option CommitDetail) (limit : Int) :
    List String → List CommitInfo
  | [] => []
  | sha :: rest =>
    match detail sha with
    | none => fetchDetails detail limit rest
    | some d => packageCommit sha d limit :: fetchDetails detail limit rest

/-- `countAllCommits`: full pagination over the commit listing; the total is
the number of items over all pages.  A page item is `none` when the API
returns a commit with `SHA == nil` (it still counts toward the total). -/
def countAllCommits (pages : List (List (Option String))) : Nat :=
  (pages.map List.length).sum

/-- Step 2 of `GetRepositoryCommitAnalysisData`: collect the non-nil SHAs
page by page; after appending a page, stop when it was the last page
(`NextPage == 0`) or at least `totalCommits` SHAs are held; additionally stop
early when more than 500 SHAs are held and at most 10 samples are wanted. -/
def collectSHAs (numRandomCommits total : Nat) :
    List (List (Option String)) → List String → List String
  | [], acc => acc
  | page :: rest, acc =>
    let acc2 := acc ++ page.filterMap id
    if rest = [] ∨ total ≤ acc2.length then acc2
    else if 500 < acc2.length ∧ numRandomCommits ≤ 10 then acc2
    else collectSHAs numRandomCommits total rest acc2

/-- `GetRepositoryCommitAnalysisData`, for a world in which the commit
listing is consistent (`pages`) and the count succeeds: count all commits;
on zero return immediately; re-list the SHAs (`listOk = false` models the
listing failure, which yields the count with no sampled commits); sample;
fetch the details of the sampled SHAs.  Returns
`(totalCommits, analyzedCommits)`. -/
def GetRepositoryCommitAnalysisData (rand : Nat → Nat)
    (pages : List (List (Option String))) (listOk : Bool)
    (detail : String → Option CommitDetail)
    (numRandomCommits : Nat) (limit : Int) : Nat × List CommitInfo :=
  let totalCommits := countAllCommits pages
  if totalCommits = 0 then (0, [])
  else if listOk = false then (totalCommits, [])
  else
    let allCommitSHAs := collectSHAs numRandomCommits totalCommits pages []
    if allCommitSHAs = [] then (totalCommits, [])
    else
      let finalSelectedSHAs := selectRandomSHAs rand allCommitSHAs numRandomCommits
      (totalCommits, fetchDetails detail limit finalSelectedSHAs)

/-- A JSON value in the extracted evaluator response: an integer, or
anything that cannot unmarshal into a Go `int` field. -/
inductive JsonValue where
  | jnum (n : Int)
  | jother
deriving DecidableEq

/-- The structured data the regex extraction hands to `json.Unmarshal`:
either text that is not valid JSON, or an object given as key/value pairs. -/
inductive ParsedJson where
  | malformed
  | obj (fields : List (String × JsonValue))
deriving DecidableEq

/-- The Gemini call outcome as seen by `AnalyzeCommitsWithGemini`:
transport error, empty/invalid response, a non-text part, or a text
response.  For a text response, `extraction` models the result of the two
regex searches (markdown ```json block first, then a direct JSON object
containing one of the two field names): `none` when no structured data is
found in the free-form text, otherwise the JSON the regex extracted. -/
inductive GeminiAPIResult where
  | transportErr
  | emptyResponse
  | nonTextPart
  | textResponse (extraction : Option ParsedJson)

/-- `json.Unmarshal(extractedJSON, &score)` for the `GeminiScore` struct:
malformed input is an error; a field that is present with a non-integer
value is an error; a field that is absent is left at Go's zero value `0`. -/
def unmarshalGeminiScore : ParsedJson → Option GeminiScore
  | ParsedJson.malformed => none
  | ParsedJson.obj fields =>
    match fields.lookup "technical_sophistication",
          fields.lookup "message_appropriateness" with
    | some JsonValue.jother, _ => none
    | _, some JsonValue.jother => none
    | some (JsonValue.jnum t), some (JsonValue.jnum m) =>
        some { TechnicalSophistication := t, MessageAppropriateness := m }
    | some (JsonValue.jnum t), none =>
        some { TechnicalSophistication := t, MessageAppropriateness := 0 }
    | none, some (JsonValue.jnum m) =>
        some { TechnicalSophistication := 0, MessageAppropriateness := m }
    | none, none =>
        some { TechnicalSophistication := 0, MessageAppropriateness := 0 }

/-- Lines 184-228 of `AnalyzeCommitsWithGemini`: the Gemini call and the
parsing of its response.  Every failure (transport, empty response, non-text
part, no extractable JSON, unparseable JSON) is an error (`none`). -/
def parseGeminiResponse : GeminiAPIResult → Option GeminiScore
  | GeminiAPIResult.transportErr => none
  | GeminiAPIResult.emptyResponse => none
  | GeminiAPIResult.nonTextPart => none
  | GeminiAPIResult.textResponse none => none
  | GeminiAPIResult.textResponse (some pj) => unmarshalGeminiScore pj

/-- `AnalyzeCommitsWithGemini`: zero total commits short-circuits to score
(0,0); a non-empty repository with no packaged samples short-circuits to the
fixed floor (1,0); otherwise the Gemini API is called and its response
parsed.  The boolean records whether the API (`GenerateContent`) was
invoked. -/
def AnalyzeCommitsWithGemini (totalCommitCount : Nat)
    (sampledCommits : List CommitInfo) (api : GeminiAPIResult) :
    Option GeminiScore × Bool :=
  if totalCommitCount = 0 then
    (some { TechnicalSophistication := 0, MessageAppropriateness := 0 }, false)
  else if sampledCommits = [] then
    (some { TechnicalSophistication := 1, MessageAppropriateness := 0 }, false)
  else (parseGeminiResponse api, true)

/-- Lines 548-558 of `main`: normalize the commit count by capping at
`maxCommitCountForNorm` and scaling to 0-10, then combine with the two
Gemini scores using the fixed weights. -/
def computeOverall (totalRepoCommits : Nat) (t m : Int) : ℚ :=
  let normalizedCommitCount : ℚ :=
    if maxCommitCountForNorm < (totalRepoCommits : ℚ) then maxCommitCountForNorm
    else (totalRepoCommits : ℚ)
  let commitScore := normalizedCommitCount / maxCommitCountForNorm * 10
  commitScore * commitCountWeight + (t : ℚ) * technicalScoreWeight
    + (m : ℚ) * messageScoreWeight

/-- The outcome of `GetRepositoryCommitAnalysisData` for one repository as
seen by `main`: an error, or the commit count with the packaged samples. -/
inductive FetchResult where
  | fetchErr
  | fetchOk (totalCommits : Nat) (sampledCommits : List CommitInfo)

/-- One repository as the main loop sees it: its name and the behaviour of
the two external collaborators for it. -/
structure RepoInput where
  name : String
  fetch : FetchResult
  api : GeminiAPIResult

/-- The body of the per-repository loop of `main` (lines 511-571): a data
fetch error records the repository with sentinel `CommitCount = -1`; zero
commits records all-zero scores without invoking Gemini; a Gemini failure
records the commit count with zero scores; otherwise the weighted overall
score is computed.  The boolean records whether the Gemini API was
invoked. -/
def processRepo (r : RepoInput) : RepoScore × Bool :=
  match r.fetch with
  | FetchResult.fetchErr =>
    ({ Name := r.name, CommitCount := -1, TechnicalScore := 0, MessageScore := 0,
       OverallScore := 0, AnalyzedCommitsCount := 0, SampledCommits := [] }, false)
  | FetchResult.fetchOk totalRepoCommits sampledCommits =>
    if totalRepoCommits = 0 then
      ({ Name := r.name, CommitCount := 0, TechnicalScore := 0, MessageScore := 0,
         OverallScore := 0, AnalyzedCommitsCount := 0, SampledCommits := [] }, false)
    else
      match AnalyzeCommitsWithGemini totalRepoCommits sampledCommits r.api with
      | (none, called) =>
        ({ Name := r.name, CommitCount := (totalRepoCommits : Int),
           TechnicalScore := 0, MessageScore := 0, OverallScore := 0,
           AnalyzedCommitsCount := sampledCommits.length,
           SampledCommits := sampledCommits }, called)
      | (some geminiEval, called) =>
        ({ Name := r.name, CommitCount := (totalRepoCommits : Int),
           TechnicalScore := geminiEval.TechnicalSophistication,
           MessageScore := geminiEval.MessageAppropriateness,
           OverallScore := computeOverall totalRepoCommits
             geminiEval.TechnicalSophistication geminiEval.MessageAppropriateness,
           AnalyzedCommitsCount := sampledCommits.length,
           SampledCommits := sampledCommits }, called)

/-- The per-repository loop of `main`: repositories with an empty name are
skipped; every other repository appends exactly one `RepoScore` to the
accumulator, and the loop always continues with the next repository. -/
def mainLoop : List RepoInput → List RepoScore → List RepoScore
  | [], acc => acc
  | r :: rest, acc =>
    if r.name = "" then mainLoop rest acc
    else mainLoop rest (acc ++ [(processRepo r).1])

/-- `sort.SliceStable(repoScores, func(i, j) { OverallScore i > OverallScore j })`:
a stable sort by overall score descending.  `sort.SliceStable` and
`List.mergeSort` compute the same list: both are stable sorts of the same
total preorder.  Element `a` may stay before `b` exactly when
`¬(b.OverallScore > a.OverallScore)`. -/
def sortRepoScores (l : List RepoScore) : List RepoScore :=
  l.mergeSort (fun a b => decide (b.OverallScore ≤ a.OverallScore))

/-- `main` after the loop: sort the accumulated scores. -/
def runPipeline (repos : List RepoInput) : List RepoScore :=
  sortRepoScores (mainLoop repos [])

/-! ### Lemmas about the Fisher-Yates sampler -/

theorem getD_of_lt (l : List String) (i : Nat) (d : String) (h : i < l.length) :
    l.getD i d = l[i] := by
  rw [List.getD_eq_getElem?_getD, List.getElem?_eq_getElem h]
  rfl

theorem cons_set_perm : ∀ (l : List Nat) (m a : Nat), m < l.length →
    List.Perm (l.getD m 0 :: l.set m a) (a :: l)
  | b :: t, 0, a, _ => by
    simpa using List.Perm.swap a b t
  | b :: t, m + 1, a, h => by
    have ih := cons_set_perm t m a (by simpa using h)
    simp only [List.getD_cons_succ, List.set_cons_succ]
    have s1 : List.Perm (t.getD m 0 :: b :: t.set m a) (b :: t.getD m 0 :: t.set m a) :=
      List.Perm.swap b (t.getD m 0) _
    have s3 : List.Perm (b :: a :: t) (a :: b :: t) := List.Perm.swap a b t
    exact (s1.trans (ih.cons b)).trans s3

theorem listSwap_perm : ∀ (l : List Nat) (i j : Nat), i < l.length → j < l.length →
    List.Perm (listSwap l i j) l
  | b :: t, 0, 0, _, _ => by
    simp [listSwap]
  | b :: t, 0, m + 1, _, hj => by
    simp only [listSwap, List.getD_cons_succ, List.getD_cons_zero, List.set_cons_zero,
      List.set_cons_succ]
    exact cons_set_perm t m b (by simpa using hj)
  | b :: t, k + 1, 0, hi, _ => by
    simp only [listSwap, List.getD_cons_succ, List.getD_cons_zero, List.set_cons_zero,
      List.set_cons_succ]
    exact cons_set_perm t k b (by simpa using hi)
  | b :: t, k + 1, m + 1, hi, hj => by
    simp only [listSwap, List.getD_cons_succ, List.set_cons_succ]
    exact (listSwap_perm t k m (by simpa using hi) (by simpa using hj)).cons b

theorem listSwap_length (l : List Nat) (i j : Nat) :
    (listSwap l i j).length = l.length := by
  simp [listSwap]

theorem fyLoop_length (rand : Nat → Nat) :
    ∀ (i : Nat) (l : List Nat), (fyLoop rand i l).length = l.length
  | 0, _ => rfl
  | i + 1, l => by
    rw [fyLoop, fyLoop_length rand i, listSwap_length]

theorem fyLoop_perm (rand : Nat → Nat) (hrand : ∀ v, rand v ≤ v) :
    ∀ (i : Nat) (l : List Nat), i < l.length → List.Perm (fyLoop rand i l) l
  | 0, l, _ => List.Perm.refl l
  | i + 1, l, hi => by
    have h2 : rand (i + 1) < l.length := lt_of_le_of_lt (hrand (i + 1)) hi
    have hlen : i < (listSwap l (i + 1) (rand (i + 1))).length := by
      rw [listSwap_length]; omega
    exact (fyLoop_perm rand hrand i _ hlen).trans (listSwap_perm l (i + 1) (rand (i + 1)) hi h2)

theorem shuffled_indices_perm (rand : Nat → Nat) (hrand : ∀ v, rand v ≤ v) (n : Nat) :
    List.Perm (fyLoop rand (n - 1) (List.range n)) (List.range n) := by
  rcases Nat.eq_zero_or_pos n with h | h
  · subst h
    exact List.Perm.refl _
  · exact fyLoop_perm rand hrand (n - 1) _ (by simp only [List.length_range]; omega)

theorem selectRandomSHAs_eq (rand : Nat → Nat) (pop : List String) (k : Nat) :
    selectRandomSHAs rand pop k =
      ((fyLoop rand (pop.length - 1) (List.range pop.length)).take
        (if pop.length < k then pop.length else k)).map (fun idx => pop.getD idx "") := rfl

/-- C1: for every population of `n` distinct commit identifiers and every
requested sample size `k`, the sampler (a full Fisher-Yates shuffle of the
index array `[0, n)`, taking the first `min(k, n)` shuffled indices) returns
exactly `min(k, n)` identifiers, all distinct, each an element of the
population; for `n = 0` the result is empty (`min k 0 = 0`) and no error is
raised. -/
theorem claim_C1_sampler (rand : Nat → Nat) (pop : List String) (k : Nat)
    (hrand : ∀ v, rand v ≤ v) (hpop : pop.Nodup) :
    (selectRandomSHAs rand pop k).length = min k pop.length
    ∧ (selectRandomSHAs rand pop k).Nodup
    ∧ ∀ s ∈ selectRandomSHAs rand pop k, s ∈ pop := by
  have hperm := shuffled_indices_perm rand hrand pop.length
  have hlen : (fyLoop rand (pop.length - 1) (List.range pop.length)).length = pop.length := by
    rw [fyLoop_length, List.length_range]
  have hmem : ∀ x ∈ fyLoop rand (pop.length - 1) (List.range pop.length), x < pop.length := by
    intro x hx
    exact List.mem_range.mp (hperm.mem_iff.mp hx)
  have hnodup : (fyLoop rand (pop.length - 1) (List.range pop.length)).Nodup :=
    hperm.nodup_iff.mpr (List.nodup_range _)
  refine ⟨?_, ?_, ?_⟩
  · rw [selectRandomSHAs_eq, List.length_map, List.length_take, hlen]
    split <;> omega
  · rw [selectRandomSHAs_eq]
    apply List.Nodup.map_on
    · intro x hx y hy hxy
      have hx2 : x < pop.length := hmem x (List.take_subset _ _ hx)
      have hy2 : y < pop.length := hmem y (List.take_subset _ _ hy)
      rw [getD_of_lt _ _ _ hx2, getD_of_lt _ _ _ hy2] at hxy
      exact hpop.getElem_inj_iff.mp hxy
    · exact hnodup.sublist (List.take_sublist _ _)
  · intro s hs
    rw [selectRandomSHAs_eq] at hs
    obtain ⟨idx, hidx, rfl⟩ := List.mem_map.mp hs
    have hidx2 : idx < pop.length := hmem idx (List.take_subset _ _ hidx)
    rw [getD_of_lt _ _ _ hidx2]
    exact List.getElem_mem _

theorem claim_C1_sampler_witness :
    ((∀ v : Nat, (fun _ : Nat => (0 : Nat)) v ≤ v) ∧ (["a", "b", "c"] : List String).Nodup)
    ∧ ((selectRandomSHAs (fun _ => 0) ["a", "b", "c"] 2).length
          = min 2 (["a", "b", "c"] : List String).length
       ∧ (selectRandomSHAs (fun _ => 0) ["a", "b", "c"] 2).Nodup
       ∧ ∀ s ∈ selectRandomSHAs (fun _ => 0) ["a", "b", "c"] 2, s ∈ (["a", "b", "c"] : List String)) :=
  ⟨⟨fun v => Nat.zero_le v, by decide⟩,
   claim_C1_sampler (fun _ => 0) ["a", "b", "c"] 2 (fun v => Nat.zero_le v) (by decide)⟩

/-! ### Lemmas about the diff packager -/

theorem lineToks_append (a b : List DiffTok) :
    lineToks (a ++ b) = lineToks a ++ lineToks b := by
  induction a with
  | nil => rfl
  | cons t rest ih => cases t <;> simp [lineToks, ih]

theorem lineToks_map_line (l : List String) : lineToks (l.map DiffTok.line) = l := by
  induction l with
  | nil => rfl
  | cons s rest ih => simp [lineToks, ih]

theorem marker_not_mem_map_line (l : List String) :
    DiffTok.marker ∉ l.map DiffTok.line := by
  simp

theorem allPatchLines_nil : allPatchLines [] = [] := rfl

theorem allPatchLines_cons_empty (rest : List String) :
    allPatchLines ("" :: rest) = allPatchLines rest := by
  simp [allPatchLines]

theorem allPatchLines_cons (p : String) (rest : List String) (h : p ≠ "") :
    allPatchLines (p :: rest) = splitLines p ++ allPatchLines rest := by
  simp [allPatchLines, List.filter_cons, h]

theorem emitPatch_no_trunc (limit : Int) :
    ∀ (lines : List String) (curr : Nat), (lines.length : Int) ≤ limit - curr →
      emitPatch limit lines curr = (lines.map DiffTok.line, curr + lines.length, false)
  | [], curr, _ => by simp [emitPatch]
  | ln :: rest, curr, h => by
    simp only [List.length_cons] at h
    have hlt : ¬ limit ≤ (curr : Int) := by push_cast at h; omega
    have ih := emitPatch_no_trunc limit rest (curr + 1) (by push_cast at h ⊢; omega)
    simp only [emitPatch, if_neg hlt, ih, List.map_cons, List.length_cons, Prod.mk.injEq]
    exact ⟨trivial, by omega, trivial⟩

theorem emitPatch_trunc (limit : Int) :
    ∀ (lines : List String) (curr : Nat), (curr : Int) ≤ limit →
      limit - curr < (lines.length : Int) →
      emitPatch limit lines curr =
        ((lines.take (limit - curr).toNat).map DiffTok.line ++ [DiffTok.marker],
         limit.toNat, true)
  | [], curr, hc, h => by simp at h; omega
  | ln :: rest, curr, hc, h => by
    rcases le_or_lt limit (curr : Int) with hle | hlt
    · have heq : limit = (curr : Int) := le_antisymm hle hc
      have h0 : (limit - curr).toNat = 0 := by omega
      have h1 : limit.toNat = curr := by omega
      simp [emitPatch, if_pos hle, h0, h1]
    · have ih := emitPatch_trunc limit rest (curr + 1) (by push_cast; omega)
        (by simp only [List.length_cons] at h; push_cast at h ⊢; omega)
      have hk : (limit - curr).toNat = (limit - (curr + 1 : Nat)).toNat + 1 := by
        push_cast; omega
      simp only [emitPatch, if_neg (not_le.mpr hlt), ih, hk, List.take_succ_cons,
        List.map_cons, List.cons_append, Prod.mk.injEq]

theorem emitFiles_no_trunc (limit : Int) :
    ∀ (patches : List String) (curr : Nat), 0 < limit → (curr : Int) ≤ limit →
      ((allPatchLines patches).length : Int) ≤ limit - curr →
      lineToks (emitFiles limit patches curr) = allPatchLines patches
      ∧ DiffTok.marker ∉ emitFiles limit patches curr
  | [], curr, _, _, _ => by simp [emitFiles, lineToks, allPatchLines_nil]
  | p :: rest, curr, h0, hc, h => by
    by_cases hp : p = ""
    · subst hp
      rw [allPatchLines_cons_empty] at h ⊢
      rw [emitFiles, if_pos rfl]
      exact emitFiles_no_trunc limit rest curr h0 hc h
    · rw [allPatchLines_cons p rest hp] at h ⊢
      simp only [List.length_append] at h
      have hpatch := emitPatch_no_trunc limit (splitLines p) curr (by push_cast at h ⊢; omega)
      have hc2 : ((curr + (splitLines p).length : Nat) : Int) ≤ limit := by
        push_cast at h ⊢; omega
      have ih := emitFiles_no_trunc limit rest (curr + (splitLines p).length) h0 hc2
        (by push_cast at h ⊢; omega)
      rw [emitFiles, if_neg hp, if_pos h0]
      simp only [hpatch]
      by_cases hcl : ((curr + (splitLines p).length : Nat) : Int) < limit
      · simp only [if_pos hcl, Bool.false_eq_true, if_false, lineToks_append, lineToks,
          lineToks_map_line, ih.1, List.mem_append, List.mem_cons]
        refine ⟨trivial, ?_⟩
        intro hmem
        rcases hmem with hmem | hmem
        · exact marker_not_mem_map_line _ hmem
        · rcases hmem with hmem | hmem
          · exact DiffTok.noConfusion hmem
          · exact ih.2 hmem
      · simp only [if_neg hcl, Bool.false_eq_true, if_false, lineToks_append, lineToks,
          lineToks_map_line, ih.1, List.mem_append]
        refine ⟨trivial, ?_⟩
        intro hmem
        rcases hmem with hmem | hmem
        · exact marker_not_mem_map_line _ hmem
        · exact ih.2 hmem

theorem emitFiles_trunc (limit : Int) :
    ∀ (patches : List String) (curr : Nat), 0 < limit → (curr : Int) ≤ limit →
      limit - curr < ((allPatchLines patches).length : Int) →
      ∃ pre, emitFiles limit patches curr = pre ++ [DiffTok.marker]
        ∧ lineToks pre = (allPatchLines patches).take (limit - curr).toNat
        ∧ DiffTok.marker ∉ pre
  | [], curr, _, hc, h => by
    rw [allPatchLines_nil] at h
    simp at h
    omega
  | p :: rest, curr, h0, hc, h => by
    by_cases hp : p = ""
    · subst hp
      rw [allPatchLines_cons_empty] at h ⊢
      rw [emitFiles, if_pos rfl]
      exact emitFiles_trunc limit rest curr h0 hc h
    · rw [allPatchLines_cons p rest hp] at h ⊢
      simp only [List.length_append] at h
      rw [emitFiles, if_neg hp, if_pos h0]
      by_cases hin : limit - curr < ((splitLines p).length : Int)
      · have hpatch := emitPatch_trunc limit (splitLines p) curr hc hin
        simp only [hpatch, if_pos rfl]
        refine ⟨((splitLines p).take (limit - curr).toNat).map DiffTok.line, rfl, ?_, ?_⟩
        · rw [lineToks_map_line,
            List.take_append_of_le_length (by omega)]
        · exact marker_not_mem_map_line _
      · push_neg at hin
        have hpatch := emitPatch_no_trunc limit (splitLines p) curr (by omega)
        simp only [hpatch]
        have hc2 : ((curr + (splitLines p).length : Nat) : Int) ≤ limit := by
          push_cast at hin ⊢; omega
        have hrest : limit - ((curr + (splitLines p).length : Nat) : Int)
            < ((allPatchLines rest).length : Int) := by
          push_cast at h ⊢; omega
        obtain ⟨pre2, hpre2, hline2, hnm2⟩ :=
          emitFiles_trunc limit rest (curr + (splitLines p).length) h0 hc2 hrest
        have harg : (limit - (curr : Int)).toNat - (splitLines p).length
            = (limit - ((curr + (splitLines p).length : Nat) : Int)).toNat := by
          push_cast
          omega
        have htake : ((splitLines p ++ allPatchLines rest).take (limit - curr).toNat)
            = splitLines p ++ (allPatchLines rest).take
                ((limit - ((curr + (splitLines p).length : Nat) : Int)).toNat) := by
          rw [List.take_append_eq_append_take,
            List.take_of_length_le (by omega), harg]
        by_cases hcl : ((curr + (splitLines p).length : Nat) : Int) < limit
        · refine ⟨(splitLines p).map DiffTok.line ++ DiffTok.sep :: pre2, ?_, ?_, ?_⟩
          · simp only [if_pos hcl, Bool.false_eq_true, if_false, hpre2]
            simp
          · rw [lineToks_append, lineToks_map_line]
            simp only [lineToks, hline2, htake]
          · intro hmem
            rcases List.mem_append.mp hmem with hmem | hmem
            · exact marker_not_mem_map_line _ hmem
            · rcases List.mem_cons.mp hmem with hmem | hmem
              · exact DiffTok.noConfusion hmem
              · exact hnm2 hmem
        · refine ⟨(splitLines p).map DiffTok.line ++ pre2, ?_, ?_, ?_⟩
          · simp only [if_neg hcl, Bool.false_eq_true, if_false, hpre2]
            simp
          · rw [lineToks_append, lineToks_map_line]
            simp only [hline2, htake]
          · intro hmem
            rcases List.mem_append.mp hmem with hmem | hmem
            · exact marker_not_mem_map_line _ hmem
            · exact hnm2 hmem

theorem emitFiles_no_limit (limit : Int) (hl : limit ≤ 0) :
    ∀ (patches : List String) (curr : Nat),
      lineToks (emitFiles limit patches curr) = allPatchLines patches
      ∧ DiffTok.marker ∉ emitFiles limit patches curr
  | [], _ => by simp [emitFiles, lineToks, allPatchLines_nil]
  | p :: rest, curr => by
    by_cases hp : p = ""
    · subst hp
      rw [allPatchLines_cons_empty, emitFiles, if_pos rfl]
      exact emitFiles_no_limit limit hl rest curr
    · have ih := emitFiles_no_limit limit hl rest curr
      rw [allPatchLines_cons p rest hp, emitFiles, if_neg hp, if_neg (by omega)]
      constructor
      · rw [lineToks_append, lineToks_map_line]
        simp only [lineToks, ih.1]
      · intro hmem
        rcases List.mem_append.mp hmem with hmem | hmem
        · exact marker_not_mem_map_line _ hmem
        · rcases List.mem_cons.mp hmem with hmem | hmem
          · exact DiffTok.noConfusion hmem
          · exact ih.2 hmem

/-- C2: for a commit whose concatenated per-file patch text has `L` lines,
(a) for every line limit `M` with `0 < M < L` the packaged diff token stream
is exactly `M` content lines (the first `M` lines of the concatenated text)
followed by the truncation marker as the final token — no content line
beyond line `M` survives, the remaining lines and files being discarded;
(b) for every line limit `M ≤ 0` no truncation occurs: the content lines are
all `L` lines of every file's full patch and no marker is emitted. -/
theorem claim_C2_truncation (patches : List String) (M : Int) :
    (0 < M → M < ((allPatchLines patches).length : Int) →
      ∃ pre, emitFiles M patches 0 = pre ++ [DiffTok.marker]
        ∧ lineToks pre = (allPatchLines patches).take M.toNat
        ∧ DiffTok.marker ∉ pre)
    ∧ (M ≤ 0 →
      lineToks (emitFiles M patches 0) = allPatchLines patches
        ∧ DiffTok.marker ∉ emitFiles M patches 0) := by
  constructor
  · intro h0 hL
    have := emitFiles_trunc M patches 0 h0 (by omega) (by push_cast; omega)
    simpa using this
  · intro h0
    exact emitFiles_no_limit M h0 patches 0

theorem claim_C2_truncation_witness :
    ((0 : Int) < 2 ∧ (2 : Int) < ((allPatchLines ["a\nb\nc"]).length : Int)
      ∧ ∃ pre, emitFiles 2 ["a\nb\nc"] 0 = pre ++ [DiffTok.marker]
        ∧ lineToks pre = (allPatchLines ["a\nb\nc"]).take (2 : Int).toNat
        ∧ DiffTok.marker ∉ pre)
    ∧ ((0 : Int) ≤ 0
      ∧ lineToks (emitFiles 0 ["a\nb\nc"] 0) = allPatchLines ["a\nb\nc"]
      ∧ DiffTok.marker ∉ emitFiles 0 ["a\nb\nc"] 0) := by
  refine ⟨⟨by decide, by decide, (claim_C2_truncation ["a\nb\nc"] 2).1 (by decide) (by decide)⟩,
    ⟨by decide, (claim_C2_truncation ["a\nb\nc"] 0).2 (by decide)⟩⟩

/-! ### Lemmas about score aggregation and the main loop -/

theorem computeOverall_eq (c : Nat) (t m : Int) :
    computeOverall c t m
      = min (c : ℚ) maxCommitCountForNorm / maxCommitCountForNorm * 10 * commitCountWeight
        + (t : ℚ) * technicalScoreWeight + (m : ℚ) * messageScoreWeight := by
  unfold computeOverall
  rcases le_or_lt (c : ℚ) maxCommitCountForNorm with h | h
  · rw [if_neg (not_lt.mpr h), min_eq_left h]
  · rw [if_pos h, min_eq_right h.le]

theorem processRepo_fetchErr (name : String) (api : GeminiAPIResult) :
    processRepo ⟨name, FetchResult.fetchErr, api⟩
      = ({ Name := name, CommitCount := -1, TechnicalScore := 0, MessageScore := 0,
           OverallScore := 0, AnalyzedCommitsCount := 0, SampledCommits := [] }, false) := rfl

theorem processRepo_zero (name : String) (sampled : List CommitInfo) (api : GeminiAPIResult) :
    processRepo ⟨name, FetchResult.fetchOk 0 sampled, api⟩
      = ({ Name := name, CommitCount := 0, TechnicalScore := 0, MessageScore := 0,
           OverallScore := 0, AnalyzedCommitsCount := 0, SampledCommits := [] }, false) := by
  simp [processRepo]

theorem processRepo_success (name : String) (c : Nat) (sampled : List CommitInfo)
    (api : GeminiAPIResult) (g : GeminiScore)
    (hc : c ≠ 0) (hs : sampled ≠ []) (hapi : parseGeminiResponse api = some g) :
    processRepo ⟨name, FetchResult.fetchOk c sampled, api⟩
      = ({ Name := name, CommitCount := (c : Int),
           TechnicalScore := g.TechnicalSophistication,
           MessageScore := g.MessageAppropriateness,
           OverallScore := computeOverall c g.TechnicalSophistication g.MessageAppropriateness,
           AnalyzedCommitsCount := sampled.length, SampledCommits := sampled }, true) := by
  simp [processRepo, AnalyzeCommitsWithGemini, hc, hs, hapi]

theorem processRepo_evalFail (name : String) (c : Nat) (sampled : List CommitInfo)
    (api : GeminiAPIResult)
    (hc : c ≠ 0) (hs : sampled ≠ []) (hapi : parseGeminiResponse api = none) :
    processRepo ⟨name, FetchResult.fetchOk c sampled, api⟩
      = ({ Name := name, CommitCount := (c : Int), TechnicalScore := 0, MessageScore := 0,
           OverallScore := 0, AnalyzedCommitsCount := sampled.length,
           SampledCommits := sampled }, true) := by
  simp [processRepo, AnalyzeCommitsWithGemini, hc, hs, hapi]

/-- C3: for a repository with `c > 0` commits whose evaluator call succeeds
with scores `t` and `m`, the recorded overall score is
`(min(c, 1000) / 1000 * 10) * 0.2 + t * 0.4 + m * 0.4`; in particular
`computeOverall 1000 10 10 = 10`, and a repository with `c = 0` is recorded
with overall score `0`. -/
theorem claim_C3_overall_score (name : String) (c : Nat) (sampled : List CommitInfo)
    (api : GeminiAPIResult) (t m : Int)
    (hc : c ≠ 0) (hs : sampled ≠ [])
    (hapi : parseGeminiResponse api = some ⟨t, m⟩) :
    (processRepo ⟨name, FetchResult.fetchOk c sampled, api⟩).1.OverallScore
      = min (c : ℚ) 1000 / 1000 * 10 * (0.2 : ℚ) + (t : ℚ) * (0.4 : ℚ) + (m : ℚ) * (0.4 : ℚ)
    ∧ computeOverall 1000 10 10 = 10
    ∧ (processRepo ⟨name, FetchResult.fetchOk 0 sampled, api⟩).1.OverallScore = 0 := by
  refine ⟨?_, by norm_num [computeOverall, maxCommitCountForNorm, commitCountWeight,
    technicalScoreWeight, messageScoreWeight], by rw [processRepo_zero]⟩
  rw [processRepo_success name c sampled api ⟨t, m⟩ hc hs hapi, computeOverall_eq]
  norm_num [maxCommitCountForNorm, commitCountWeight, technicalScoreWeight, messageScoreWeight]

theorem claim_C3_overall_score_witness :
    ((500 : Nat) ≠ 0 ∧ ([⟨"s", "m", "d"⟩] : List CommitInfo) ≠ []
      ∧ parseGeminiResponse (GeminiAPIResult.textResponse (some (ParsedJson.obj
          [("technical_sophistication", JsonValue.jnum 7),
           ("message_appropriateness", JsonValue.jnum 9)]))) = some ⟨7, 9⟩)
    ∧ ((processRepo ⟨"r", FetchResult.fetchOk 500 [⟨"s", "m", "d"⟩],
          GeminiAPIResult.textResponse (some (ParsedJson.obj
            [("technical_sophistication", JsonValue.jnum 7),
             ("message_appropriateness", JsonValue.jnum 9)]))⟩).1.OverallScore
        = min ((500 : Nat) : ℚ) 1000 / 1000 * 10 * (0.2 : ℚ)
          + ((7 : Int) : ℚ) * (0.4 : ℚ) + ((9 : Int) : ℚ) * (0.4 : ℚ)
      ∧ computeOverall 1000 10 10 = 10
      ∧ (processRepo ⟨"r", FetchResult.fetchOk 0 [⟨"s", "m", "d"⟩],
          GeminiAPIResult.textResponse (some (ParsedJson.obj
            [("technical_sophistication", JsonValue.jnum 7),
             ("message_appropriateness", JsonValue.jnum 9)]))⟩).1.OverallScore = 0) :=
  ⟨⟨by decide, by decide, by decide⟩,
   claim_C3_overall_score "r" 500 [⟨"s", "m", "d"⟩] _ 7 9 (by decide) (by decide) (by decide)⟩

/-- C4: a repository recorded with commit count 0 gets overall, technical
and message scores 0 and analyzed count 0, and the evaluator is never
invoked: `main` short-circuits before calling `AnalyzeCommitsWithGemini`
(second component `false`), and even `AnalyzeCommitsWithGemini` itself would
return without calling the Gemini API for a zero commit count. -/
theorem claim_C4_zero_commit_short_circuit (name : String) (sampled : List CommitInfo)
    (api : GeminiAPIResult) :
    (processRepo ⟨name, FetchResult.fetchOk 0 sampled, api⟩).1.OverallScore = 0
    ∧ (processRepo ⟨name, FetchResult.fetchOk 0 sampled, api⟩).1.TechnicalScore = 0
    ∧ (processRepo ⟨name, FetchResult.fetchOk 0 sampled, api⟩).1.MessageScore = 0
    ∧ (processRepo ⟨name, FetchResult.fetchOk 0 sampled, api⟩).1.AnalyzedCommitsCount = 0
    ∧ (processRepo ⟨name, FetchResult.fetchOk 0 sampled, api⟩).2 = false
    ∧ (AnalyzeCommitsWithGemini 0 sampled api).2 = false := by
  rw [processRepo_zero]
  exact ⟨rfl, rfl, rfl, rfl, rfl, rfl⟩

/-- C5 counterexample: the claim says a missing field in the extracted
structured data fails that repository's evaluation, but when the evaluator
wraps `{"technical_sophistication": 5}` (no `message_appropriateness`) in a
markdown code block, `json.Unmarshal` leaves the missing field at Go's zero
value and the evaluation succeeds with score (5, 0) — no error is raised. -/
theorem claim_C5_counterexample :
    parseGeminiResponse (GeminiAPIResult.textResponse (some (ParsedJson.obj
        [("technical_sophistication", JsonValue.jnum 5)])))
      = some { TechnicalSophistication := 5, MessageAppropriateness := 0 }
    ∧ (AnalyzeCommitsWithGemini 10 [{ SHA := "s", Message := "m", Diff := "" }]
        (GeminiAPIResult.textResponse (some (ParsedJson.obj
          [("technical_sophistication", JsonValue.jnum 5)])))).1
      = some { TechnicalSophistication := 5, MessageAppropriateness := 0 } := by
  constructor <;> rfl

/-- C5 amended: if no structured data can be found in the free-form response
text, or the extracted data is malformed, or a *present* field cannot parse
as an integer, the repository's evaluation fails with an error; but a field
that is *absent* from the extracted structured data does not fail the
evaluation — it silently defaults to 0. -/
theorem claim_C5_parse_failures (fields : List (String × JsonValue)) (t m : Int) :
    parseGeminiResponse (GeminiAPIResult.textResponse none) = none
    ∧ parseGeminiResponse (GeminiAPIResult.textResponse (some ParsedJson.malformed)) = none
    ∧ parseGeminiResponse GeminiAPIResult.transportErr = none
    ∧ parseGeminiResponse GeminiAPIResult.emptyResponse = none
    ∧ (fields.lookup "technical_sophistication" = some JsonValue.jother →
        parseGeminiResponse (GeminiAPIResult.textResponse (some (ParsedJson.obj fields))) = none)
    ∧ (fields.lookup "message_appropriateness" = some JsonValue.jother →
        parseGeminiResponse (GeminiAPIResult.textResponse (some (ParsedJson.obj fields))) = none)
    ∧ (fields.lookup "technical_sophistication" = some (JsonValue.jnum t) →
        fields.lookup "message_appropriateness" = none →
        parseGeminiResponse (GeminiAPIResult.textResponse (some (ParsedJson.obj fields)))
          = some { TechnicalSophistication := t, MessageAppropriateness := 0 })
    ∧ (fields.lookup "message_appropriateness" = some (JsonValue.jnum m) →
        fields.lookup "technical_sophistication" = none →
        parseGeminiResponse (GeminiAPIResult.textResponse (some (ParsedJson.obj fields)))
          = some { TechnicalSophistication := 0, MessageAppropriateness := m }) := by
  refine ⟨rfl, rfl, rfl, rfl, ?_, ?_, ?_, ?_⟩
  · intro h1
    simp [parseGeminiResponse, unmarshalGeminiScore, h1]
  · intro h1
    rcases h2 : fields.lookup "technical_sophistication" with _ | v
    · simp [parseGeminiResponse, unmarshalGeminiScore, h1, h2]
    · cases v <;> simp [parseGeminiResponse, unmarshalGeminiScore, h1, h2]
  · intro h1 h2
    simp [parseGeminiResponse, unmarshalGeminiScore, h1, h2]
  · intro h1 h2
    simp [parseGeminiResponse, unmarshalGeminiScore, h1, h2]

theorem claim_C5_parse_failures_witness :
    parseGeminiResponse (GeminiAPIResult.textResponse (some (ParsedJson.obj
        [("technical_sophistication", JsonValue.jother)]))) = none
    ∧ parseGeminiResponse (GeminiAPIResult.textResponse (some (ParsedJson.obj
        [("message_appropriateness", JsonValue.jother)]))) = none
    ∧ parseGeminiResponse (GeminiAPIResult.textResponse (some (ParsedJson.obj
        [("technical_sophistication", JsonValue.jnum 7)])))
      = some { TechnicalSophistication := 7, MessageAppropriateness := 0 }
    ∧ parseGeminiResponse (GeminiAPIResult.textResponse (some (ParsedJson.obj
        [("message_appropriateness", JsonValue.jnum 3)])))
      = some { TechnicalSophistication := 0, MessageAppropriateness := 3 } :=
  ⟨(claim_C5_parse_failures [("technical_sophistication", JsonValue.jother)] 0 0).2.2.2.2.1
      (by decide),
   (claim_C5_parse_failures [("message_appropriateness", JsonValue.jother)] 0 0).2.2.2.2.2.1
      (by decide),
   (claim_C5_parse_failures [("technical_sophistication", JsonValue.jnum 7)] 7 0).2.2.2.2.2.2.1
      (by decide) (by decide),
   (claim_C5_parse_failures [("message_appropriateness", JsonValue.jnum 3)] 0 3).2.2.2.2.2.2.2
      (by decide) (by decide)⟩

/-- C10: the pipeline never validates that parsed evaluator scores lie in
[0,10]: any integers (negative or above 10) parse successfully, are used
unchanged in the weighted formula, and are recorded unchanged, so the
overall score is not bounded by [0,10] (witnessed by `computeOverall 1 15 15
> 10` and `computeOverall 1 (-1) (-1) < 0`). -/
theorem claim_C10_no_score_validation (name : String) (c : Nat) (sampled : List CommitInfo)
    (t m : Int) (hc : c ≠ 0) (hs : sampled ≠ []) :
    parseGeminiResponse (GeminiAPIResult.textResponse (some (ParsedJson.obj
        [("technical_sophistication", JsonValue.jnum t),
         ("message_appropriateness", JsonValue.jnum m)])))
      = some { TechnicalSophistication := t, MessageAppropriateness := m }
    ∧ (processRepo ⟨name, FetchResult.fetchOk c sampled,
          GeminiAPIResult.textResponse (some (ParsedJson.obj
            [("technical_sophistication", JsonValue.jnum t),
             ("message_appropriateness", JsonValue.jnum m)]))⟩).1.TechnicalScore = t
    ∧ (processRepo ⟨name, FetchResult.fetchOk c sampled,
          GeminiAPIResult.textResponse (some (ParsedJson.obj
            [("technical_sophistication", JsonValue.jnum t),
             ("message_appropriateness", JsonValue.jnum m)]))⟩).1.MessageScore = m
    ∧ (processRepo ⟨name, FetchResult.fetchOk c sampled,
          GeminiAPIResult.textResponse (some (ParsedJson.obj
            [("technical_sophistication", JsonValue.jnum t),
             ("message_appropriateness", JsonValue.jnum m)]))⟩).1.OverallScore
        = computeOverall c t m
    ∧ (10 : ℚ) < computeOverall 1 15 15
    ∧ computeOverall 1 (-1) (-1) < 0 := by
  have hparse : parseGeminiResponse (GeminiAPIResult.textResponse (some (ParsedJson.obj
      [("technical_sophistication", JsonValue.jnum t),
       ("message_appropriateness", JsonValue.jnum m)])))
      = some { TechnicalSophistication := t, MessageAppropriateness := m } := rfl
  have hrec := processRepo_success name c sampled _ ⟨t, m⟩ hc hs hparse
  refine ⟨hparse, ?_, ?_, ?_, ?_, ?_⟩
  · rw [hrec]
  · rw [hrec]
  · rw [hrec]
  · norm_num [computeOverall, maxCommitCountForNorm, commitCountWeight,
      technicalScoreWeight, messageScoreWeight]
  · norm_num [computeOverall, maxCommitCountForNorm, commitCountWeight,
      technicalScoreWeight, messageScoreWeight]

theorem claim_C10_no_score_validation_witness :
    ((3 : Nat) ≠ 0 ∧ ([⟨"s", "m", "d"⟩] : List CommitInfo) ≠ [])
    ∧ (parseGeminiResponse (GeminiAPIResult.textResponse (some (ParsedJson.obj
          [("technical_sophistication", JsonValue.jnum (-1)),
           ("message_appropriateness", JsonValue.jnum 15)])))
        = some { TechnicalSophistication := -1, MessageAppropriateness := 15 }
      ∧ (processRepo ⟨"r", FetchResult.fetchOk 3 [⟨"s", "m", "d"⟩],
            GeminiAPIResult.textResponse (some (ParsedJson.obj
              [("technical_sophistication", JsonValue.jnum (-1)),
               ("message_appropriateness", JsonValue.jnum 15)]))⟩).1.TechnicalScore = -1
      ∧ (processRepo ⟨"r", FetchResult.fetchOk 3 [⟨"s", "m", "d"⟩],
            GeminiAPIResult.textResponse (some (ParsedJson.obj
              [("technical_sophistication", JsonValue.jnum (-1)),
               ("message_appropriateness", JsonValue.jnum 15)]))⟩).1.MessageScore = 15
      ∧ (processRepo ⟨"r", FetchResult.fetchOk 3 [⟨"s", "m", "d"⟩],
            GeminiAPIResult.textResponse (some (ParsedJson.obj
              [("technical_sophistication", JsonValue.jnum (-1)),
               ("message_appropriateness", JsonValue.jnum 15)]))⟩).1.OverallScore
          = computeOverall 3 (-1) 15
      ∧ (10 : ℚ) < computeOverall 1 15 15
      ∧ computeOverall 1 (-1) (-1) < 0) :=
  ⟨⟨by decide, by decide⟩,
   claim_C10_no_score_validation "r" 3 [⟨"s", "m", "d"⟩] (-1) 15 (by decide) (by decide)⟩

theorem mainLoop_acc : ∀ (repos : List RepoInput) (acc : List RepoScore),
    mainLoop repos acc = acc ++ mainLoop repos []
  | [], acc => by simp [mainLoop]
  | r :: rest, acc => by
    by_cases h : r.name = ""
    · rw [mainLoop, if_pos h, mainLoop_acc rest acc]
      conv_rhs => rw [mainLoop, if_pos h]
    · rw [mainLoop, if_neg h, mainLoop_acc rest (acc ++ [(processRepo r).1])]
      conv_rhs => rw [mainLoop, if_neg h, mainLoop_acc rest ([] ++ [(processRepo r).1])]
      simp

theorem mainLoop_append : ∀ (a b : List RepoInput),
    mainLoop (a ++ b) [] = mainLoop a [] ++ mainLoop b []
  | [], b => by simp [mainLoop]
  | r :: rest, b => by
    by_cases h : r.name = ""
    · rw [List.cons_append, mainLoop, if_pos h, mainLoop_append rest b]
      conv_rhs => rw [mainLoop, if_pos h]
    · rw [List.cons_append, mainLoop, if_neg h, mainLoop_acc (rest ++ b),
        mainLoop_append rest b]
      conv_rhs => rw [mainLoop, if_neg h, mainLoop_acc rest ([] ++ [(processRepo r).1])]
      simp

/-- C6: failures are contained at repository granularity: the main loop
processes every repository independently (a failing repository contributes
exactly its own record and the remaining repositories are processed exactly
as they would be on their own); a data-fetch failure records the sentinel
commit count -1, and an evaluator failure records the commit count intact
with both qualitative scores 0. -/
theorem claim_C6_error_containment (pre post : List RepoInput) (r : RepoInput)
    (hname : r.name ≠ "") :
    mainLoop (pre ++ r :: post) [] = mainLoop pre [] ++ (processRepo r).1 :: mainLoop post []
    ∧ (r.fetch = FetchResult.fetchErr → (processRepo r).1.CommitCount = -1)
    ∧ (∀ (c : Nat) (sampled : List CommitInfo),
        r.fetch = FetchResult.fetchOk c sampled → c ≠ 0 → sampled ≠ [] →
        parseGeminiResponse r.api = none →
        (processRepo r).1.CommitCount = (c : Int)
        ∧ (processRepo r).1.TechnicalScore = 0
        ∧ (processRepo r).1.MessageScore = 0) := by
  refine ⟨?_, ?_, ?_⟩
  · rw [mainLoop_append pre (r :: post), mainLoop, if_neg hname,
      mainLoop_acc post ([] ++ [(processRepo r).1])]
    simp
  · intro hferr
    obtain ⟨n, f, a⟩ := r
    simp only at hferr
    subst hferr
    rw [processRepo_fetchErr]
  · intro c sampled hf hc hs hapi
    obtain ⟨n, f, a⟩ := r
    simp only at hf hapi
    subst hf
    rw [processRepo_evalFail n c sampled a hc hs hapi]
    exact ⟨rfl, rfl, rfl⟩

theorem claim_C6_error_containment_witness :
    (let rerr : RepoInput := ⟨"bad", FetchResult.fetchErr, GeminiAPIResult.transportErr⟩
     let rok : RepoInput := ⟨"good", FetchResult.fetchOk 2 [⟨"s", "m", "d"⟩],
       GeminiAPIResult.textResponse (some (ParsedJson.obj
         [("technical_sophistication", JsonValue.jnum 4),
          ("message_appropriateness", JsonValue.jnum 6)]))⟩
     mainLoop ([rok] ++ rerr :: [rok]) []
       = mainLoop [rok] [] ++ (processRepo rerr).1 :: mainLoop [rok] []
     ∧ (processRepo rerr).1.CommitCount = -1)
    ∧ (let rfail : RepoInput := ⟨"evalfail", FetchResult.fetchOk 9 [⟨"s", "m", "d"⟩],
         GeminiAPIResult.transportErr⟩
       (processRepo rfail).1.CommitCount = (9 : Int)
       ∧ (processRepo rfail).1.TechnicalScore = 0
       ∧ (processRepo rfail).1.MessageScore = 0) := by
  constructor
  · have h := claim_C6_error_containment [⟨"good", FetchResult.fetchOk 2 [⟨"s", "m", "d"⟩],
      GeminiAPIResult.textResponse (some (ParsedJson.obj
        [("technical_sophistication", JsonValue.jnum 4),
         ("message_appropriateness", JsonValue.jnum 6)]))⟩]
      [⟨"good", FetchResult.fetchOk 2 [⟨"s", "m", "d"⟩],
        GeminiAPIResult.textResponse (some (ParsedJson.obj
          [("technical_sophistication", JsonValue.jnum 4),
           ("message_appropriateness", JsonValue.jnum 6)]))⟩]
      ⟨"bad", FetchResult.fetchErr, GeminiAPIResult.transportErr⟩ (by decide)
    exact ⟨h.1, h.2.1 rfl⟩
  · have h := claim_C6_error_containment [] []
      ⟨"evalfail", FetchResult.fetchOk 9 [⟨"s", "m", "d"⟩], GeminiAPIResult.transportErr⟩
      (by decide)
    exact h.2.2 9 [⟨"s", "m", "d"⟩] rfl (by decide) (by decide) rfl

theorem fetchDetails_length (detail : String → Option CommitDetail) (limit : Int) :
    ∀ (shas : List String),
      (fetchDetails detail limit shas).length
        = (shas.filter (fun s => (detail s).isSome)).length
  | [] => rfl
  | sha :: rest => by
    rcases h : detail sha with _ | d
    · simp [fetchDetails, h, List.filter_cons, fetchDetails_length detail limit rest]
    · simp [fetchDetails, h, List.filter_cons, fetchDetails_length detail limit rest]

theorem filter_isSome_isNone_length (detail : String → Option CommitDetail) :
    ∀ (shas : List String),
      (shas.filter (fun s => (detail s).isSome)).length
        + (shas.filter (fun s => (detail s).isNone)).length = shas.length
  | [] => rfl
  | sha :: rest => by
    have ih := filter_isSome_isNone_length detail rest
    rcases h : detail sha with _ | d <;>
      simp [List.filter_cons, h] <;> omega

/-- C7: a failure to fetch one commit's detail causes only that commit to be
skipped from the packaged sample set (the remaining identifiers are
processed exactly as if the failing one were not present), and the run does
not abort; in particular, if the detail fetch fails for exactly one of five
sampled identifiers, the packaged result set has length 4. -/
theorem claim_C7_detail_fetch_skip (detail : String → Option CommitDetail) (limit : Int) :
    (∀ (pre post : List String) (sha : String), detail sha = none →
      fetchDetails detail limit (pre ++ sha :: post) = fetchDetails detail limit (pre ++ post))
    ∧ (∀ (shas : List String), shas.length = 5 →
        (shas.filter (fun s => (detail s).isNone)).length = 1 →
        (fetchDetails detail limit shas).length = 4) := by
  constructor
  · intro pre post sha hsha
    induction pre with
    | nil => simp [fetchDetails, hsha]
    | cons p rest ih =>
      rcases h : detail p with _ | d <;> simp [fetchDetails, h, ih]
  · intro shas h5 h1
    have := filter_isSome_isNone_length detail shas
    rw [fetchDetails_length]
    omega

theorem claim_C7_detail_fetch_skip_witness :
    (let detail : String → Option CommitDetail :=
      fun s => if s = "s3" then none else some ⟨some s, []⟩
     detail "s3" = none
     ∧ fetchDetails detail 100 (["s1", "s2"] ++ "s3" :: ["s4", "s5"])
        = fetchDetails detail 100 (["s1", "s2"] ++ ["s4", "s5"])
     ∧ (["s1", "s2", "s3", "s4", "s5"] : List String).length = 5
     ∧ ((["s1", "s2", "s3", "s4", "s5"] : List String).filter
          (fun s => (detail s).isNone)).length = 1
     ∧ (fetchDetails detail 100 ["s1", "s2", "s3", "s4", "s5"]).length = 4) := by
  refine ⟨by decide, ?_, by decide, by decide, ?_⟩
  · exact (claim_C7_detail_fetch_skip _ 100).1 ["s1", "s2"] ["s4", "s5"] "s3" (by decide)
  · exact (claim_C7_detail_fetch_skip _ 100).2 ["s1", "s2", "s3", "s4", "s5"]
      (by decide) (by decide)

/-- C8: after processing, the result list is sorted by overall score in
descending order with a stable sort: for every score value `q`, the
subsequence of repositories whose overall score equals `q` is exactly the
same (same records, same relative order) as in the pre-sort enumeration
order, and the sorted list is a permutation of the input. -/
theorem claim_C8_stable_sort (l : List RepoScore) (q : ℚ) :
    List.Sorted (fun a b => b.OverallScore ≤ a.OverallScore) (sortRepoScores l)
    ∧ (sortRepoScores l).filter (fun r => decide (r.OverallScore = q))
        = l.filter (fun r => decide (r.OverallScore = q))
    ∧ List.Perm (sortRepoScores l) l := by
  have htrans : ∀ (a b c : RepoScore),
      decide (b.OverallScore ≤ a.OverallScore) = true →
      decide (c.OverallScore ≤ b.OverallScore) = true →
      decide (c.OverallScore ≤ a.OverallScore) = true := by
    intro a b c h1 h2
    simp only [decide_eq_true_eq] at h1 h2 ⊢
    exact le_trans h2 h1
  have htotal : ∀ (a b : RepoScore),
      (decide (b.OverallScore ≤ a.OverallScore)
        || decide (a.OverallScore ≤ b.OverallScore)) = true := by
    intro a b
    simp only [Bool.or_eq_true, decide_eq_true_eq]
    exact le_total _ _
  refine ⟨?_, ?_, List.mergeSort_perm l _⟩
  · have hs := List.sorted_mergeSort htrans htotal l
    exact hs.imp (fun h => by simpa using h)
  · have hfsub : List.Sublist (l.filter (fun r => decide (r.OverallScore = q)))
        (sortRepoScores l) := by
      apply List.sublist_mergeSort htrans htotal
      · apply List.pairwise_of_forall_mem_list
        intro a ha b hb
        have ha2 := List.of_mem_filter ha
        have hb2 := List.of_mem_filter hb
        simp only [decide_eq_true_eq] at ha2 hb2
        simp [ha2, hb2]
      · exact List.filter_sublist l
    have hsubf : List.Sublist (l.filter (fun r => decide (r.OverallScore = q)))
        ((sortRepoScores l).filter (fun r => decide (r.OverallScore = q))) := by
      have h2 := hfsub.filter (fun r => decide (r.OverallScore = q))
      rw [List.filter_filter] at h2
      simpa using h2
    have hlen : ((sortRepoScores l).filter (fun r => decide (r.OverallScore = q))).length
        = (l.filter (fun r => decide (r.OverallScore = q))).length :=
      ((List.mergeSort_perm l _).filter _).length_eq
    exact (hsubf.eq_of_length hlen.symm).symm

theorem selectRandomSHAs_length (rand : Nat → Nat) (pop : List String) (k : Nat) :
    (selectRandomSHAs rand pop k).length = min k pop.length := by
  rw [selectRandomSHAs_eq, List.length_map, List.length_take, fyLoop_length, List.length_range]
  split <;> omega

theorem collectSHAs_length_le (k total : Nat) :
    ∀ (pages : List (List (Option String))) (acc : List String),
      (collectSHAs k total pages acc).length
        ≤ acc.length + (pages.map (fun p => (p.filterMap id).length)).sum
  | [], acc => by simp [collectSHAs]
  | page :: rest, acc => by
    simp only [collectSHAs, List.map_cons, List.sum_cons]
    by_cases h1 : rest = [] ∨ total ≤ (acc ++ page.filterMap id).length
    · rw [if_pos h1]
      simp only [List.length_append]
      omega
    · rw [if_neg h1]
      by_cases h2 : 500 < (acc ++ page.filterMap id).length ∧ k ≤ 10
      · rw [if_pos h2]
        simp only [List.length_append]
        omega
      · rw [if_neg h2]
        have ih := collectSHAs_length_le k total rest (acc ++ page.filterMap id)
        simp only [List.length_append] at ih
        omega

theorem collectSHAs_le_total (k : Nat) (pages : List (List (Option String))) :
    (collectSHAs k (countAllCommits pages) pages []).length ≤ countAllCommits pages := by
  have h1 := collectSHAs_length_le k (countAllCommits pages) pages []
  have h2 : ((pages.map (fun p => (p.filterMap id).length)).sum)
      ≤ ((pages.map List.length).sum) :=
    List.sum_le_sum (fun p _ => List.length_filterMap_le id p)
  unfold countAllCommits at *
  simp only [List.length_nil] at h1
  omega

/-- C9: for every repository whose analysis data fetch succeeds, the number
of analyzed (successfully packaged) commits is at most
`min(sampleTargetSize, commitCount)` with `sampleTargetSize = 5`
(`numRandomCommitsToAnalyze`) and `commitCount` the recorded total. -/
theorem claim_C9_analyzed_count_bound (rand : Nat → Nat)
    (pages : List (List (Option String))) (listOk : Bool)
    (detail : String → Option CommitDetail) (limit : Int) :
    (GetRepositoryCommitAnalysisData rand pages listOk detail
        numRandomCommitsToAnalyze limit).2.length
      ≤ min numRandomCommitsToAnalyze
          (GetRepositoryCommitAnalysisData rand pages listOk detail
            numRandomCommitsToAnalyze limit).1 := by
  unfold GetRepositoryCommitAnalysisData
  by_cases h0 : countAllCommits pages = 0
  · simp [h0]
  · rw [if_neg h0]
    cases listOk with
    | false => simp
    | true =>
      rw [if_neg (by simp)]
      by_cases hsh : collectSHAs numRandomCommitsToAnalyze (countAllCommits pages) pages [] = []
      · simp [hsh]
      · rw [if_neg hsh]
        simp only
        rw [fetchDetails_length]
        have hfil := List.length_filter_le (fun s => (detail s).isSome)
          (selectRandomSHAs rand
            (collectSHAs numRandomCommitsToAnalyze (countAllCommits pages) pages [])
            numRandomCommitsToAnalyze)
        have hsel := selectRandomSHAs_length rand
          (collectSHAs numRandomCommitsToAnalyze (countAllCommits pages) pages [])
          numRandomCommitsToAnalyze
        have hcol := collectSHAs_le_total numRandomCommitsToAnalyze pages
        omega
